import Mathlib

/-!
Verification of the go-fasttext repository against its specification.

The development shallow-embeds the Go sources:
* `util.go` — the binary vector codec (`vecToBytes`, `bytesToVec`);
* `fasttext.go` — the corpus reader (`readwordEmbdFile`), the bulk loader
  (`BuildDB`), the point lookup (`GetEmb`) and the in-memory mirror
  (`NewFastTextInMem`).

IEEE-754 floating point is not translatable to a shallow embedding, so the
64-bit float type of the program is abstracted as a `FloatModel`: a type
`F64` together with the narrowing of a value to its 32-bit bit pattern
(`f32bits`, Go `math.Float32bits(float32(v))`), the widening of a 32-bit
pattern back to a 64-bit value (`ofBits32`, Go `float64(math.Float32frombits b)`)
and the text parser (`parseFloat`, Go `strconv.ParseFloat(s, 64)`).  Every
theorem quantifies over the model, so it holds in particular for the real
IEEE interpretation.  Byte-level serialization, string splitting, integer
parsing and the store are embedded concretely from the source.

The SQLite layer is external to the repository and is modelled, as the spec
directs, as a keyed table: a list of `(word, blob)` rows with a uniqueness
check on insert and an `indexed` flag.  The producer/consumer channel of
`readwordEmbdFile` is serialized: records are emitted in line order and the
consumer inserts them in that order.
-/

namespace GoFastText

/-- The two byte orders of Go's `encoding/binary` used by the codec. -/
inductive ByteOrder where
  | bigEndian
  | littleEndian
deriving DecidableEq

/-- The package-level `ByteOrder` variable of `fasttext.go`: `binary.BigEndian`. -/
def byteOrderConst : ByteOrder := ByteOrder.bigEndian

/-- Abstraction of the 64-bit floating point type and the three IEEE-754
operations the program uses on it (narrowing to a 32-bit pattern, widening
from a 32-bit pattern, parsing from text).  `f32bits_lt` records that a
32-bit pattern fits in 32 bits. -/
structure FloatModel where
  F64 : Type
  f32bits : F64 → Nat
  ofBits32 : Nat → F64
  parseFloat : String → Option F64
  f32bits_lt : ∀ x, f32bits x < 4294967296

/-- `order.PutUint32`: the four bytes of a 32-bit pattern in the given order. -/
def putU32 (order : ByteOrder) (n : Nat) : List Nat :=
  match order with
  | ByteOrder.bigEndian => [n / 16777216 % 256, n / 65536 % 256, n / 256 % 256, n % 256]
  | ByteOrder.littleEndian => [n % 256, n / 256 % 256, n / 65536 % 256, n / 16777216 % 256]

/-- `order.Uint32`: reassemble a 32-bit pattern from four bytes. -/
def getU32 (order : ByteOrder) (b0 b1 b2 b3 : Nat) : Nat :=
  match order with
  | ByteOrder.bigEndian => ((b0 * 256 + b1) * 256 + b2) * 256 + b3
  | ByteOrder.littleEndian => ((b3 * 256 + b2) * 256 + b1) * 256 + b0

/-- `vecToBytes` from `util.go`: write each element as the 4 bytes of its
32-bit pattern, concatenated in vector order. -/
def vecToBytes (M : FloatModel) (vec : List M.F64) (order : ByteOrder) : List Nat :=
  (vec.map (fun v => putU32 order (M.f32bits v))).flatten

/-- One `binary.Read` of a `float32`: consume 4 bytes or fail at end of input. -/
def read32 (order : ByteOrder) : List Nat → Option (Nat × List Nat)
  | b0 :: b1 :: b2 :: b3 :: rest => some (getU32 order b0 b1 b2 b3, rest)
  | _ => none

/-- The error a failing `binary.Read` reports inside `bytesToVec`. -/
inductive CodecErr where
  | unexpectedEOF
deriving DecidableEq

/-- The read loop of `bytesToVec`: `n` iterations of `binary.Read`. -/
def bytesToVecAux (M : FloatModel) (order : ByteOrder) :
    Nat → List Nat → Except CodecErr (List M.F64)
  | 0, _ => Except.ok []
  | n + 1, data =>
    match read32 order data with
    | none => Except.error CodecErr.unexpectedEOF
    | some (bits, rest) =>
      match bytesToVecAux M order n rest with
      | Except.ok vs => Except.ok (M.ofBits32 bits :: vs)
      | Except.error e => Except.error e

/-- `bytesToVec` from `util.go`: `size := len(data) / 4` values are read. -/
def bytesToVec (M : FloatModel) (data : List Nat) (order : ByteOrder) :
    Except CodecErr (List M.F64) :=
  bytesToVecAux M order (data.length / 4) data

@[simp]
theorem putU32_length (order : ByteOrder) (n : Nat) : (putU32 order n).length = 4 := by
  cases order <;> rfl

theorem read32_putU32 (order : ByteOrder) (n : Nat) (rest : List Nat)
    (h : n < 4294967296) : read32 order (putU32 order n ++ rest) = some (n, rest) := by
  cases order <;> simp [putU32, read32, getU32] <;> omega

@[simp]
theorem vecToBytes_nil (M : FloatModel) (order : ByteOrder) :
    vecToBytes M [] order = [] := rfl

theorem vecToBytes_cons (M : FloatModel) (v : M.F64) (vs : List M.F64) (order : ByteOrder) :
    vecToBytes M (v :: vs) order = putU32 order (M.f32bits v) ++ vecToBytes M vs order := by
  simp [vecToBytes]

theorem vecToBytes_length (M : FloatModel) (vec : List M.F64) (order : ByteOrder) :
    (vecToBytes M vec order).length = 4 * vec.length := by
  induction vec with
  | nil => rfl
  | cons v vs ih =>
    rw [vecToBytes_cons, List.length_append, ih, putU32_length, List.length_cons]
    ring

theorem bytesToVecAux_roundtrip (M : FloatModel) (order : ByteOrder) (vec : List M.F64) :
    bytesToVecAux M order vec.length (vecToBytes M vec order) =
      Except.ok (vec.map (fun v => M.ofBits32 (M.f32bits v))) := by
  induction vec with
  | nil => rfl
  | cons v vs ih =>
    rw [List.length_cons, vecToBytes_cons]
    simp only [bytesToVecAux, read32_putU32 order _ _ (M.f32bits_lt v), ih, List.map_cons]

theorem bytesToVecAux_ok (M : FloatModel) (order : ByteOrder) :
    ∀ (n : Nat) (data : List Nat), 4 * n ≤ data.length →
      ∃ v, bytesToVecAux M order n data = Except.ok v ∧ v.length = n := by
  intro n
  induction n with
  | zero => exact fun data _ => ⟨[], rfl, rfl⟩
  | succ k ih =>
    intro data h
    rcases data with _ | ⟨b0, _ | ⟨b1, _ | ⟨b2, _ | ⟨b3, rest⟩⟩⟩⟩ <;>
      simp only [List.length_nil, List.length_cons] at h <;> try omega
    obtain ⟨v, hv, hlen⟩ := ih rest (by omega)
    refine ⟨M.ofBits32 (getU32 order b0 b1 b2 b3) :: v, ?_, by simp [hlen]⟩
    simp [bytesToVecAux, read32, hv]

theorem bytesToVecAux_take (M : FloatModel) (order : ByteOrder) :
    ∀ (n : Nat) (data : List Nat), 4 * n ≤ data.length →
      bytesToVecAux M order n (data.take (4 * n)) = bytesToVecAux M order n data := by
  intro n
  induction n with
  | zero => intro data _; rfl
  | succ k ih =>
    intro data h
    rcases data with _ | ⟨b0, _ | ⟨b1, _ | ⟨b2, _ | ⟨b3, rest⟩⟩⟩⟩ <;>
      simp only [List.length_nil, List.length_cons] at h <;> try omega
    have harith : 4 * (k + 1) = 4 * k + 1 + 1 + 1 + 1 := by ring
    rw [harith]
    simp only [List.take_succ_cons]
    simp only [bytesToVecAux, read32, ih rest (by omega)]

theorem bytesToVec_ok (M : FloatModel) (data : List Nat) (order : ByteOrder) :
    ∃ v, bytesToVec M data order = Except.ok v ∧ v.length = data.length / 4 :=
  bytesToVecAux_ok M order (data.length / 4) data (by omega)

/-! ## The string operations of `fasttext.go`

`String` in this Lean version is a structure around `List Char`, so the Go
string functions are embedded as structural recursions over the character
list; this keeps every definition kernel-reducible. -/

/-- `strings.Split(s, " ")` on the character list: split around every single
space, keeping empty fields; never returns the empty list. -/
def splitOnSpaceChars : List Char → List (List Char)
  | [] => [[]]
  | c :: cs =>
    let r := splitOnSpaceChars cs
    if c = ' ' then [] :: r
    else
      match r with
      | [] => [[c]]
      | x :: xs => (c :: x) :: xs

/-- `strings.Split(s, " ")` from the Go standard library. -/
def splitGo (s : String) : List String :=
  (splitOnSpaceChars s.toList).map (fun l => ⟨l⟩)

/-- Find the first space: `none` when there is none, otherwise the parts
before and after it. -/
def breakSpace : List Char → Option (List Char × List Char)
  | [] => none
  | c :: cs =>
    if c = ' ' then some ([], cs)
    else (breakSpace cs).map (fun p => (c :: p.1, p.2))

/-- `strings.SplitN(s, " ", 2)`: the whole string when it has no space,
otherwise the part before the first space and the rest. -/
def splitN2 (s : String) : List String :=
  match breakSpace s.toList with
  | none => [s]
  | some (w, rest) => [⟨w⟩, ⟨rest⟩]

/-- `unicode.IsSpace` on the ASCII whitespace characters. -/
def isGoSpace (c : Char) : Bool :=
  c == ' ' || c == '\t' || c == '\n' || c == Char.ofNat 11 || c == Char.ofNat 12 || c == '\r'

/-- `strings.TrimSpace`: drop whitespace from both ends. -/
def trimGo (s : String) : String :=
  ⟨((s.toList.dropWhile isGoSpace).reverse.dropWhile isGoSpace).reverse⟩

/-- Decimal digits accumulator of `strconv.Atoi`; fails on a non-digit. -/
def parseDigitsAux : List Char → Nat → Option Nat
  | [], acc => some acc
  | c :: cs, acc =>
    if c.isDigit then parseDigitsAux cs (acc * 10 + (c.toNat - 48)) else none

/-- Digits of `strconv.Atoi` after the optional sign: at least one digit. -/
def parseDigitsNE : List Char → Option Nat
  | [] => none
  | ds => parseDigitsAux ds 0

/-- `strconv.Atoi`: optional sign, decimal digits, 64-bit range check
(out-of-range input returns an error in Go, hence `none` here). -/
def atoiGo (s : String) : Option Int :=
  match s.toList with
  | [] => none
  | '+' :: ds =>
    match parseDigitsNE ds with
    | some n => if n ≤ 9223372036854775807 then some (n : Int) else none
    | none => none
  | '-' :: ds =>
    match parseDigitsNE ds with
    | some n => if n ≤ 9223372036854775808 then some (-(n : Int)) else none
    | none => none
  | ds =>
    match parseDigitsNE ds with
    | some n => if n ≤ 9223372036854775807 then some (n : Int) else none
    | none => none

/-! ## The corpus reader `readwordEmbdFile` of `fasttext.go`

The Go reader runs in a goroutine and `panic`s on malformed input; a panic
in the goroutine kills the whole process, it is never returned as an error.
The reader is embedded as a function from the list of corpus lines to the
records emitted before any panic, together with the panic if one occurs.
The unbuffered channel is serialized: records reach the consumer in line
order. -/

/-- A `wordEmb` record of `fasttext.go`. -/
structure WordEmb (F : Type) where
  Word : String
  Vec : List F

/-- The panics `readwordEmbdFile` can raise, with the data of their
messages: an out-of-range index on a line without a space, a failed
`strconv.Atoi` on the header, the dimension-mismatch message (expected
size, actual token count, line number, word), a failed
`strconv.ParseFloat` on a vector token. -/
inductive GoPanic where
  | indexOutOfRange
  | atoiFailed (tok : String)
  | sizeMismatch (expected : Int) (got : Nat) (line : Nat) (word : String)
  | parseFloatFailed (tok : String)
deriving DecidableEq

/-- The sequential `strconv.ParseFloat` loop over the vector tokens:
the value list, or the first token that fails to parse. -/
def parseFloats (M : FloatModel) : List String → Except String (List M.F64)
  | [] => Except.ok []
  | t :: ts =>
    match M.parseFloat t with
    | none => Except.error t
    | some v =>
      match parseFloats M ts with
      | Except.ok vs => Except.ok (v :: vs)
      | Except.error e => Except.error e

/-- The body of the reader loop for one data line (the `else` branch of
`embSize == 0`): split off the word, substitute the single-space sentinel
for an empty word, check the token count against `embSize`, parse the
tokens. -/
def parseDataLine (M : FloatModel) (embSize : Int) (line : Nat) (data : String) :
    Except GoPanic (WordEmb M.F64) :=
  match splitN2 data with
  | [word0, remainder] =>
    let word := if word0 = "" then " " else word0
    let vecStrs := splitGo (trimGo remainder)
    if (vecStrs.length : Int) = embSize then
      match parseFloats M vecStrs with
      | Except.ok vec => Except.ok ⟨word, vec⟩
      | Except.error tok => Except.error (GoPanic.parseFloatFailed tok)
    else Except.error (GoPanic.sizeMismatch embSize vecStrs.length line word)
  | _ => Except.error GoPanic.indexOutOfRange

/-- The scanner loop of `readwordEmbdFile`.  While `embSize` is still `0`
a line is treated as a header: its second space-separated token is parsed
as the dimension (a missing token is an index-out-of-range panic, exactly
as `strings.Split(data, " ")[1]` panics in Go).  Afterwards each line is a
data line.  Returns the emitted records and the panic, if any. -/
def readLoop (M : FloatModel) : Int → Nat → List String → List (WordEmb M.F64) × Option GoPanic
  | _, _, [] => ([], none)
  | embSize, line, data :: rest =>
    if embSize = 0 then
      match splitGo data with
      | _ :: tok :: _ =>
        match atoiGo tok with
        | some n => readLoop M n (line + 1) rest
        | none => ([], some (GoPanic.atoiFailed tok))
      | _ => ([], some GoPanic.indexOutOfRange)
    else
      match parseDataLine M embSize line data with
      | Except.ok e =>
        let r := readLoop M embSize (line + 1) rest
        (e :: r.1, r.2)
      | Except.error p => ([], some p)

/-- `readwordEmbdFile`: the scanner starts with `embSize = 0` at line 1. -/
def readwordEmbdFile (M : FloatModel) (corpus : List String) :
    List (WordEmb M.F64) × Option GoPanic :=
  readLoop M 0 1 corpus

/-- The dimension declared by the first corpus line, read exactly as the
code reads it: `strconv.Atoi(strings.Split(line, " ")[1])`. -/
def headerDim (corpus : List String) : Option Int :=
  match corpus with
  | [] => none
  | data :: _ =>
    match splitGo data with
    | _ :: tok :: _ => atoiGo tok
    | _ => none

/-! ## The store: `BuildDB`, `GetEmb`, `NewFastTextInMem`

The SQLite engine is external to the repository; per the spec it is
modelled as a keyed table.  `rows` is the insertion-ordered list of
`(word, emb)` pairs, `indexed` records whether `CREATE INDEX` has run.
The `UNIQUE` constraint on `word` makes an insert of a present key fail,
leaving the rows written so far in place (no enclosing transaction). -/

/-- The `fasttext` table: its rows in insertion order and its index flag. -/
structure Table where
  rows : List (String × List Nat)
  indexed : Bool
deriving DecidableEq

/-- Outcome of `BuildDB`: success, the `CREATE TABLE` error when the
schema already exists, the `UNIQUE`-violation error naming the duplicate
word, or a process-killing panic raised by the reader goroutine. -/
inductive BuildResult where
  | ok
  | schemaExists
  | dupKey (w : String)
  | panicked (p : GoPanic)
deriving DecidableEq

/-- The insert loop of `BuildDB`: insert each `(word, blob)` pair in order;
a duplicate word makes `stmt.Exec` fail, stopping the loop with the rows
inserted so far intact. -/
def insertAll : Table → List (String × List Nat) → Table × Option String
  | t, [] => (t, none)
  | t, (w, b) :: rest =>
    if t.rows.any (fun r => r.1 == w) then (t, some w)
    else insertAll ⟨t.rows ++ [(w, b)], t.indexed⟩ rest

/-- The records as `BuildDB` writes them: each vector encoded by
`vecToBytes` with the package byte order. -/
def encodeRecs (M : FloatModel) (recs : List (WordEmb M.F64)) : List (String × List Nat) :=
  recs.map (fun e => (e.Word, vecToBytes M e.Vec byteOrderConst))

/-- `BuildDB`: fail if the schema exists; otherwise create the table,
insert the records streamed by `readwordEmbdFile`, and create the index
only after every record is written.  A duplicate key surfaces as the
insert error; a reader panic kills the process after the records before
the offending line were inserted. -/
def BuildDB (M : FloatModel) (db : Option Table) (corpus : List String) :
    Option Table × BuildResult :=
  match db with
  | some t => (some t, BuildResult.schemaExists)
  | none =>
    match insertAll ⟨[], false⟩ (encodeRecs M (readwordEmbdFile M corpus).1),
        (readwordEmbdFile M corpus).2 with
    | (t1, some w), _ => (some t1, BuildResult.dupKey w)
    | (t1, none), some p => (some t1, BuildResult.panicked p)
    | (t1, none), none => (some ⟨t1.rows, true⟩, BuildResult.ok)

/-- The errors `GetEmb` can return: `ErrNoEmbFound` on a missing word, or
the error of `bytesToVec` on the stored blob. -/
inductive EmbError where
  | noEmbFound
  | codec (e : CodecErr)
deriving DecidableEq

/-- `GetEmb`: point lookup `SELECT emb FROM fasttext WHERE word=?`; no row
gives `ErrNoEmbFound`, a hit decodes the blob with the package byte
order. -/
def GetEmb (M : FloatModel) (t : Table) (w : String) : Except EmbError (List M.F64) :=
  match t.rows.find? (fun r => r.1 == w) with
  | none => Except.error EmbError.noEmbFound
  | some r =>
    match bytesToVec M r.2 byteOrderConst with
    | Except.ok v => Except.ok v
    | Except.error e => Except.error (EmbError.codec e)

/-- `NewFastTextInMem`: copy every row of the on-disk table into a fresh
in-memory table (`CREATE TABLE fasttext AS SELECT * FROM disk.fasttext`)
and build an index on it. -/
def NewFastTextInMem (t : Table) : Table :=
  ⟨t.rows, true⟩

/-- A concrete instantiation of the abstract float model, used to evaluate
the claims on explicit inputs: values are their 32-bit patterns, and a
token parses when it is a nonempty string of digits, dots and minus signs
(every numeric token of the concrete corpora below parses in Go too). -/
def M0 : FloatModel where
  F64 := Nat
  f32bits := fun n => n % 4294967296
  ofBits32 := fun n => n
  parseFloat := fun s =>
    match s.toList with
    | [] => none
    | l => if l.all (fun c => c.isDigit || c == '.' || c == '-') then some 0 else none
  f32bits_lt := fun n => Nat.mod_lt n (by norm_num)

/-! ## Properties of the insert loop -/

theorem insertAll_nodup :
    ∀ (l : List (String × List Nat)) (t : Table),
      (((t.rows ++ l).map Prod.fst).Nodup) →
      insertAll t l = (⟨t.rows ++ l, t.indexed⟩, none) := by
  intro l
  induction l with
  | nil => intro t _; simp [insertAll]
  | cons p rest ih =>
    intro t hnd
    obtain ⟨w, b⟩ := p
    have hmem : w ∉ t.rows.map Prod.fst := by
      intro hw
      rw [List.map_append] at hnd
      rcases List.mem_map.mp hw with ⟨r, hr, hrw⟩
      exact (List.disjoint_of_nodup_append hnd) hw (by simp)
    have hany : t.rows.any (fun r => r.1 == w) = false := by
      rw [Bool.eq_false_iff]
      intro hco
      rcases List.any_eq_true.mp hco with ⟨r, hr, hrw⟩
      exact hmem (List.mem_map.mpr ⟨r, hr, by simpa using hrw⟩)
    rw [insertAll, hany]
    simp only [Bool.false_eq_true, if_false]
    have hnd2 : ((((⟨t.rows ++ [(w, b)], t.indexed⟩ : Table).rows ++ rest).map Prod.fst).Nodup) := by
      simpa [List.append_assoc] using hnd
    rw [ih ⟨t.rows ++ [(w, b)], t.indexed⟩ hnd2]
    simp [List.append_assoc]

theorem insertAll_none :
    ∀ (l : List (String × List Nat)) (t t1 : Table),
      insertAll t l = (t1, none) → t1.rows = t.rows ++ l ∧ t1.indexed = t.indexed := by
  intro l
  induction l with
  | nil =>
    intro t t1 h
    injection h with h1 h2
    rw [← h1]
    simp
  | cons p rest ih =>
    intro t t1 h
    obtain ⟨w, b⟩ := p
    rw [insertAll] at h
    by_cases hany : t.rows.any (fun r => r.1 == w) = true
    · rw [if_pos hany] at h
      injection h with h1 h2
      exact absurd h2 (by simp)
    · rw [if_neg hany] at h
      obtain ⟨h1, h2⟩ := ih ⟨t.rows ++ [(w, b)], t.indexed⟩ t1 h
      exact ⟨by simpa [List.append_assoc] using h1, h2⟩

theorem insertAll_sub :
    ∀ (l : List (String × List Nat)) (t : Table),
      ∃ l2, (insertAll t l).1.rows = t.rows ++ l2 ∧ l2.Sublist l := by
  intro l
  induction l with
  | nil => exact fun t => ⟨[], by simp [insertAll], List.Sublist.refl []⟩
  | cons p rest ih =>
    intro t
    obtain ⟨w, b⟩ := p
    rw [insertAll]
    by_cases hany : t.rows.any (fun r => r.1 == w) = true
    · exact ⟨[], by simp [hany], List.nil_sublist _⟩
    · rw [if_neg hany]
      obtain ⟨l2, hl2, hsub⟩ := ih ⟨t.rows ++ [(w, b)], t.indexed⟩
      exact ⟨(w, b) :: l2, by simpa [List.append_assoc] using hl2, List.Sublist.cons₂ _ hsub⟩

theorem encodeRecs_keys (M : FloatModel) (recs : List (WordEmb M.F64)) :
    (encodeRecs M recs).map Prod.fst = recs.map WordEmb.Word := by
  simp [encodeRecs, List.map_map]

/-! ## Claims -/

/-- C1: for every vector `v` (any dimension, both byte orders), decoding
the encoding of `v` with the same byte order returns the vector obtained
from `v` by narrowing each element to 32-bit floating-point precision
(widening the narrowed bit pattern back to 64 bits). -/
theorem c1_codec_roundtrip (M : FloatModel) (vec : List M.F64) (order : ByteOrder) :
    bytesToVec M (vecToBytes M vec order) order =
      Except.ok (vec.map (fun v => M.ofBits32 (M.f32bits v))) := by
  unfold bytesToVec
  rw [vecToBytes_length, Nat.mul_div_cancel_left _ (by norm_num)]
  exact bytesToVecAux_roundtrip M order vec

/-- C10: for every byte slice and byte order, `bytesToVec` succeeds and
returns exactly `⌊len/4⌋` elements; the trailing `len mod 4` bytes are
ignored (the result only depends on the first `4⌊len/4⌋` bytes). -/
theorem c10_decode_total (M : FloatModel) (data : List Nat) (order : ByteOrder) :
    ∃ v, bytesToVec M data order = Except.ok v ∧ v.length = data.length / 4 ∧
      bytesToVec M (data.take (4 * (data.length / 4))) order = Except.ok v := by
  obtain ⟨v, hv, hlen⟩ := bytesToVec_ok M data order
  refine ⟨v, hv, hlen, ?_⟩
  unfold bytesToVec at hv ⊢
  have h4 : 4 * (data.length / 4) ≤ data.length := by omega
  have htk : (data.take (4 * (data.length / 4))).length = 4 * (data.length / 4) := by
    simp only [List.length_take]
    omega
  rw [htk, Nat.mul_div_cancel_left _ (by norm_num), bytesToVecAux_take M order _ data h4]
  exact hv

/-- C6, counterexample: on the 5-byte input `[0,0,0,0,7]`, whose length is
not a multiple of 4, `bytesToVec` does not fail — it returns the one
decoded element, ignoring the trailing byte. -/
theorem c6_counterexample :
    bytesToVec M0 [0, 0, 0, 0, 7] ByteOrder.bigEndian = Except.ok ([0] : List Nat) ∧
      ([0, 0, 0, 0, 7] : List Nat).length % 4 = 1 :=
  ⟨rfl, rfl⟩

/-- C6, amended: for every byte sequence whose length is not a multiple of
4, `bytesToVec` does not fail: it succeeds, silently ignoring the trailing
bytes and returning `⌊len/4⌋` elements. -/
theorem c6_amended_trailing_ignored (M : FloatModel) (data : List Nat) (order : ByteOrder)
    (h : data.length % 4 ≠ 0) :
    ∃ v, bytesToVec M data order = Except.ok v ∧ v.length = data.length / 4 :=
  bytesToVec_ok M data order

/-- C6, witness for the amended theorem at the 5-byte input. -/
theorem c6_witness :
    ([0, 0, 0, 0, 7] : List Nat).length % 4 ≠ 0 ∧
      ∃ v, bytesToVec M0 [0, 0, 0, 0, 7] ByteOrder.bigEndian = Except.ok v ∧
        v.length = ([0, 0, 0, 0, 7] : List Nat).length / 4 :=
  ⟨by decide, c6_amended_trailing_ignored M0 [0, 0, 0, 0, 7] ByteOrder.bigEndian (by decide)⟩

/-- C7: a second `BuildDB` on a store whose schema already exists (after a
first successful `BuildDB`) fails with the schema-exists error and leaves
the stored entries exactly as the first load left them. -/
theorem c7_double_init (M : FloatModel) (corpus1 corpus2 : List String) (t : Table)
    (hfirst : BuildDB M none corpus1 = (some t, BuildResult.ok)) :
    BuildDB M (some t) corpus2 = (some t, BuildResult.schemaExists) := rfl

/-- C7, witness: a concrete first load followed by a failing second call. -/
theorem c7_witness :
    BuildDB M0 none ["1 2", "a 1.0 2.0"] =
        (some ⟨[("a", [0, 0, 0, 0, 0, 0, 0, 0])], true⟩, BuildResult.ok) ∧
      BuildDB M0 (some ⟨[("a", [0, 0, 0, 0, 0, 0, 0, 0])], true⟩) ["1 2", "a 1.0 2.0"] =
        (some ⟨[("a", [0, 0, 0, 0, 0, 0, 0, 0])], true⟩, BuildResult.schemaExists) :=
  ⟨rfl, c7_double_init M0 ["1 2", "a 1.0 2.0"] ["1 2", "a 1.0 2.0"] _ rfl⟩

/-- C3: on a store successfully built from a corpus, the in-memory mirror
answers every `GetEmb` query exactly as the on-disk store does (same
vector on a hit, same not-found error on a miss). -/
theorem c3_mirror_equiv (M : FloatModel) (corpus : List String) (t : Table)
    (hbuilt : BuildDB M none corpus = (some t, BuildResult.ok)) (w : String) :
    GetEmb M (NewFastTextInMem t) w = GetEmb M t w := rfl

/-- C3, witness: the mirror of a concretely built store agrees on a lookup. -/
theorem c3_witness :
    BuildDB M0 none ["1 2", "a 1.0 2.0"] =
        (some ⟨[("a", [0, 0, 0, 0, 0, 0, 0, 0])], true⟩, BuildResult.ok) ∧
      GetEmb M0 (NewFastTextInMem ⟨[("a", [0, 0, 0, 0, 0, 0, 0, 0])], true⟩) "a" =
        GetEmb M0 ⟨[("a", [0, 0, 0, 0, 0, 0, 0, 0])], true⟩ "a" :=
  ⟨rfl, c3_mirror_equiv M0 ["1 2", "a 1.0 2.0"] _ rfl "a"⟩

/-- C4: `GetEmb` returns the not-found error exactly when no row with the
queried word exists; on a hit it decodes the stored blob and returns the
decoded vector.  Both outcomes are ordinary return values of the
function (`Except`), not fatal conditions. -/
theorem c4_getemb_spec (M : FloatModel) (t : Table) (w : String) :
    (GetEmb M t w = Except.error EmbError.noEmbFound ↔ ¬ ∃ b, (w, b) ∈ t.rows) ∧
      ∀ r, t.rows.find? (fun x => x.1 == w) = some r →
        ∃ v, bytesToVec M r.2 byteOrderConst = Except.ok v ∧ GetEmb M t w = Except.ok v := by
  constructor
  · constructor
    · rintro herr ⟨b, hb⟩
      cases hf : t.rows.find? (fun x => x.1 == w) with
      | none =>
        have := List.find?_eq_none.mp hf (w, b) hb
        simp at this
      | some r =>
        obtain ⟨v, hv, -⟩ := bytesToVec_ok M r.2 byteOrderConst
        simp only [GetEmb, hf, hv] at herr
        exact Except.noConfusion herr
    · intro hne
      cases hf : t.rows.find? (fun x => x.1 == w) with
      | none => simp [GetEmb, hf]
      | some r =>
        exfalso
        apply hne
        have hp : r.1 = w := by simpa using List.find?_some hf
        have hm := List.mem_of_find?_eq_some hf
        rw [← hp]
        exact ⟨r.2, hm⟩
  · intro r hr
    obtain ⟨v, hv, -⟩ := bytesToVec_ok M r.2 byteOrderConst
    exact ⟨v, hv, by simp [GetEmb, hr, hv]⟩

/-- C4, witness: on a one-row store, a hit decodes the blob and a miss
returns the not-found error. -/
theorem c4_witness :
    (∃ v, bytesToVec M0 ([0, 0, 0, 0] : List Nat) byteOrderConst = Except.ok v ∧
        GetEmb M0 ⟨[("a", [0, 0, 0, 0])], true⟩ "a" = Except.ok v) ∧
      (GetEmb M0 ⟨[("a", [0, 0, 0, 0])], true⟩ "z" = Except.error EmbError.noEmbFound ↔
        ¬ ∃ b, ("z", b) ∈ ([("a", [0, 0, 0, 0])] : List (String × List Nat))) :=
  ⟨(c4_getemb_spec M0 ⟨[("a", [0, 0, 0, 0])], true⟩ "a").2 ("a", [0, 0, 0, 0]) rfl,
   (c4_getemb_spec M0 ⟨[("a", [0, 0, 0, 0])], true⟩ "z").1⟩

/-- The corpus of the C2 counterexample: a well-formed header declaring
dimension 2, one good record, then a line with only one vector token. -/
def badCorpus : List String := ["2 2", "a 1.0 2.0", "b 3.0"]

/-- C2, counterexample: on `badCorpus` the load ends in a goroutine panic
(the process terminates) — the outcome is `panicked`, not any error value
returned to the caller; indeed no `FormatError`-like constructor exists in
the code's possible returns at all. -/
theorem c2_counterexample :
    BuildDB M0 none badCorpus =
      (some ⟨[("a", [0, 0, 0, 0, 0, 0, 0, 0])], false⟩,
        BuildResult.panicked (GoPanic.sizeMismatch 2 1 3 "b")) := rfl

/-- C2, amended: a corpus on which the reader detects a malformed record
(dimension mismatch, unparsable float token, or unparsable header
dimension) makes `BuildDB` abort by an uncaught panic in the reader
goroutine, which terminates the process instead of returning an error
value; the records emitted before the offending line are the only ones
written, and the index is never built. -/
theorem c2_amended_panics (M : FloatModel) (corpus : List String)
    (recs : List (WordEmb M.F64)) (p : GoPanic)
    (hread : readwordEmbdFile M corpus = (recs, some p))
    (hnodup : (recs.map WordEmb.Word).Nodup) :
    BuildDB M none corpus = (some ⟨encodeRecs M recs, false⟩, BuildResult.panicked p) := by
  have hins := insertAll_nodup (encodeRecs M recs) ⟨[], false⟩
    (by simpa [encodeRecs_keys] using hnodup)
  simp only [BuildDB, hread, hins, List.nil_append]

/-- C2, witness for the amended theorem on `badCorpus`. -/
theorem c2_witness :
    readwordEmbdFile M0 badCorpus =
        ([⟨"a", ([0, 0] : List Nat)⟩], some (GoPanic.sizeMismatch 2 1 3 "b")) ∧
      BuildDB M0 none badCorpus =
        (some ⟨encodeRecs M0 [⟨"a", ([0, 0] : List Nat)⟩], false⟩,
          BuildResult.panicked (GoPanic.sizeMismatch 2 1 3 "b")) :=
  ⟨rfl, c2_amended_panics M0 badCorpus [⟨"a", ([0, 0] : List Nat)⟩]
    (GoPanic.sizeMismatch 2 1 3 "b") rfl (by simp)⟩

theorem parseDataLine_ok_word (M : FloatModel) (embSize : Int) (line : Nat)
    (data : String) (e : WordEmb M.F64)
    (h : parseDataLine M embSize line data = Except.ok e) :
    ∃ word0 remainder, splitN2 data = [word0, remainder] ∧
      e.Word = (if word0 = "" then " " else word0) := by
  cases hsp : splitN2 data with
  | nil => rw [parseDataLine, hsp] at h; exact Except.noConfusion h
  | cons a as =>
    cases as with
    | nil => rw [parseDataLine, hsp] at h; exact Except.noConfusion h
    | cons b bs =>
      cases bs with
      | cons c cs => rw [parseDataLine, hsp] at h; exact Except.noConfusion h
      | nil =>
        refine ⟨a, b, rfl, ?_⟩
        rw [parseDataLine, hsp] at h
        simp only at h
        split at h
        · split at h
          · injection h with h1
            rw [← h1]
          · exact Except.noConfusion h
        · exact Except.noConfusion h

theorem parseDataLine_word_ne (M : FloatModel) (embSize : Int) (line : Nat)
    (data : String) (e : WordEmb M.F64)
    (h : parseDataLine M embSize line data = Except.ok e) : e.Word ≠ "" := by
  obtain ⟨word0, remainder, -, hw⟩ := parseDataLine_ok_word M embSize line data e h
  rw [hw]
  split
  · decide
  · assumption

theorem readLoop_word_ne (M : FloatModel) :
    ∀ (lines : List String) (embSize : Int) (line : Nat) (e : WordEmb M.F64),
      e ∈ (readLoop M embSize line lines).1 → e.Word ≠ "" := by
  intro lines
  induction lines with
  | nil => intro embSize line e he; simp [readLoop] at he
  | cons data rest ih =>
    intro embSize line e he
    rw [readLoop] at he
    split at he
    · split at he
      · split at he
        · exact ih _ _ e he
        · simp at he
      · simp at he
    · split at he
      · rcases List.mem_cons.mp he with heq | htail
        · subst heq
          exact parseDataLine_word_ne M embSize line data e (by assumption)
        · exact ih _ _ e htail
      · simp at he

theorem BuildDB_rows_from (M : FloatModel) (corpus : List String) (t : Table)
    (res : BuildResult) (h : BuildDB M none corpus = (some t, res)) :
    t.rows = (insertAll ⟨[], false⟩ (encodeRecs M (readwordEmbdFile M corpus).1)).1.rows := by
  rcases hins : insertAll ⟨[], false⟩ (encodeRecs M (readwordEmbdFile M corpus).1) with ⟨t1, o⟩
  simp only [BuildDB, hins] at h
  cases o with
  | some w => injection h with h1 h2; injection h1 with h1; rw [← h1]
  | none =>
    cases hp : (readwordEmbdFile M corpus).2 with
    | some p => rw [hp] at h; injection h with h1 h2; injection h1 with h1; rw [← h1]
    | none => rw [hp] at h; injection h with h1 h2; injection h1 with h1; rw [← h1]

theorem BuildDB_ok_state (M : FloatModel) (corpus : List String) (t : Table)
    (h : BuildDB M none corpus = (some t, BuildResult.ok)) :
    t.rows = encodeRecs M (readwordEmbdFile M corpus).1 ∧ t.indexed = true ∧
      (readwordEmbdFile M corpus).2 = none := by
  rcases hins : insertAll ⟨[], false⟩ (encodeRecs M (readwordEmbdFile M corpus).1) with ⟨t1, o⟩
  simp only [BuildDB, hins] at h
  cases o with
  | some w => injection h with h1 h2; exact absurd h2 (by simp)
  | none =>
    cases hp : (readwordEmbdFile M corpus).2 with
    | some p => rw [hp] at h; injection h with h1 h2; exact absurd h2 (by simp)
    | none =>
      rw [hp] at h
      injection h with h1 h2
      injection h1 with h1
      obtain ⟨hrows, -⟩ := insertAll_none _ _ _ hins
      rw [← h1]
      exact ⟨by simpa using hrows, rfl, rfl⟩

/-- C5: the key normalization invariant.  A data line whose raw word token
is empty yields a record stored under the single-space sentinel key; no
row of a table built by `BuildDB` ever carries the empty-string key; and
after a successful build, a record with the sentinel word makes the vector
retrievable via `GetEmb " "`. -/
theorem c5_sentinel_key (M : FloatModel) (embSize : Int) (line : Nat) (data : String)
    (e : WordEmb M.F64) (corpus : List String) (t : Table) (res : BuildResult) :
    ((splitN2 data).head? = some "" → parseDataLine M embSize line data = Except.ok e →
        e.Word = " ") ∧
      (BuildDB M none corpus = (some t, res) → ∀ row ∈ t.rows, row.1 ≠ "") ∧
      (BuildDB M none corpus = (some t, BuildResult.ok) →
        (∃ e2 ∈ (readwordEmbdFile M corpus).1, e2.Word = " ") →
        ∃ v, GetEmb M t " " = Except.ok v) := by
  refine ⟨?_, ?_, ?_⟩
  · intro hhead hok
    obtain ⟨word0, remainder, hsp, hw⟩ := parseDataLine_ok_word M embSize line data e hok
    rw [hsp] at hhead
    simp only [List.head?_cons, Option.some.injEq] at hhead
    rw [hw, if_pos hhead]
  · intro hb row hrow
    rw [BuildDB_rows_from M corpus t res hb] at hrow
    obtain ⟨l2, hl2, hsub⟩ := insertAll_sub (encodeRecs M (readwordEmbdFile M corpus).1) ⟨[], false⟩
    rw [hl2] at hrow
    simp only [List.nil_append] at hrow
    have hrow2 := hsub.subset hrow
    obtain ⟨e2, he2, heq⟩ := List.mem_map.mp hrow2
    have := readLoop_word_ne M corpus 0 1 e2 he2
    rw [← heq]
    exact this
  · intro hb hmem
    obtain ⟨hrows, -, -⟩ := BuildDB_ok_state M corpus t hb
    obtain ⟨e2, he2, hw2⟩ := hmem
    have hmemrow : (" ", vecToBytes M e2.Vec byteOrderConst) ∈ t.rows := by
      rw [hrows]
      exact List.mem_map.mpr ⟨e2, he2, by rw [hw2]⟩
    have hfind : (t.rows.find? (fun r => r.1 == " ")).isSome := by
      rw [List.find?_isSome]
      exact ⟨_, hmemrow, by simp⟩
    obtain ⟨r, hr⟩ := Option.isSome_iff_exists.mp hfind
    obtain ⟨v, hv, -⟩ := bytesToVec_ok M r.2 byteOrderConst
    exact ⟨v, by simp [GetEmb, hr, hv]⟩

/-- C5, witness: the corpus line `" 0.1 0.2"` has an empty word token, is
parsed to the sentinel record, is stored under `" "`, and is retrieved by
`GetEmb " "`. -/
theorem c5_witness :
    (splitN2 " 0.1 0.2").head? = some "" ∧
      parseDataLine M0 2 2 " 0.1 0.2" = Except.ok ⟨" ", ([0, 0] : List Nat)⟩ ∧
      (⟨" ", ([0, 0] : List Nat)⟩ : WordEmb M0.F64).Word = " " ∧
      BuildDB M0 none ["3 2", " 0.1 0.2"] =
        (some ⟨[(" ", [0, 0, 0, 0, 0, 0, 0, 0])], true⟩, BuildResult.ok) ∧
      (" ", ([0, 0, 0, 0, 0, 0, 0, 0] : List Nat)).1 ≠ "" ∧
      ∃ v, GetEmb M0 ⟨[(" ", [0, 0, 0, 0, 0, 0, 0, 0])], true⟩ " " = Except.ok v :=
  ⟨rfl, rfl,
    (c5_sentinel_key M0 2 2 " 0.1 0.2" ⟨" ", ([0, 0] : List Nat)⟩ ["3 2", " 0.1 0.2"]
      ⟨[(" ", [0, 0, 0, 0, 0, 0, 0, 0])], true⟩ BuildResult.ok).1 rfl rfl,
    rfl,
    (c5_sentinel_key M0 2 2 " 0.1 0.2" ⟨" ", ([0, 0] : List Nat)⟩ ["3 2", " 0.1 0.2"]
      ⟨[(" ", [0, 0, 0, 0, 0, 0, 0, 0])], true⟩ BuildResult.ok).2.1 rfl
      (" ", [0, 0, 0, 0, 0, 0, 0, 0]) (by simp),
    (c5_sentinel_key M0 2 2 " 0.1 0.2" ⟨" ", ([0, 0] : List Nat)⟩ ["3 2", " 0.1 0.2"]
      ⟨[(" ", [0, 0, 0, 0, 0, 0, 0, 0])], true⟩ BuildResult.ok).2.2 rfl
      ⟨⟨" ", ([0, 0] : List Nat)⟩,
        by
          rw [show (readwordEmbdFile M0 ["3 2", " 0.1 0.2"]).1 =
            [⟨" ", ([0, 0] : List Nat)⟩] from rfl]
          exact List.mem_singleton.mpr rfl,
        rfl⟩⟩

theorem insertAll_firstDup :
    ∀ (l : List (String × List Nat)) (t : Table),
      ((t.rows.map Prod.fst).Nodup) → ¬ (((t.rows ++ l).map Prod.fst).Nodup) →
      ∃ pre w b post, l = pre ++ (w, b) :: post ∧
        (((t.rows ++ pre).map Prod.fst).Nodup) ∧ w ∈ (t.rows ++ pre).map Prod.fst ∧
        insertAll t l = (⟨t.rows ++ pre, t.indexed⟩, some w) := by
  intro l
  induction l with
  | nil => intro t h1 h2; exact absurd (by simpa using h1) h2
  | cons p rest ih =>
    intro t h1 h2
    obtain ⟨w, b⟩ := p
    by_cases hmem : w ∈ t.rows.map Prod.fst
    · have hany : t.rows.any (fun r => r.1 == w) = true := by
        rcases List.mem_map.mp hmem with ⟨r, hr, hrw⟩
        exact List.any_eq_true.mpr ⟨r, hr, by simpa using hrw⟩
      refine ⟨[], w, b, rest, by simp, by simpa using h1, by simpa using hmem, ?_⟩
      rw [insertAll, if_pos hany]
      simp
    · have hany : t.rows.any (fun r => r.1 == w) = false := by
        rw [Bool.eq_false_iff]
        intro hco
        rcases List.any_eq_true.mp hco with ⟨r, hr, hrw⟩
        exact hmem (List.mem_map.mpr ⟨r, hr, by simpa using hrw⟩)
      have h1' : (((⟨t.rows ++ [(w, b)], t.indexed⟩ : Table).rows.map Prod.fst).Nodup) := by
        simp only [List.map_append]
        rw [List.nodup_append]
        exact ⟨h1, by simp, by simpa using hmem⟩
      have h2' : ¬ ((((⟨t.rows ++ [(w, b)], t.indexed⟩ : Table).rows ++ rest).map Prod.fst).Nodup) := by
        simpa [List.append_assoc] using h2
      obtain ⟨pre, w2, b2, post, hl, hnd, hm, hins⟩ :=
        ih ⟨t.rows ++ [(w, b)], t.indexed⟩ h1' h2'
      refine ⟨(w, b) :: pre, w2, b2, post, by rw [hl]; simp, ?_, ?_, ?_⟩
      · simpa [List.append_assoc] using hnd
      · simpa [List.append_assoc] using hm
      · rw [insertAll, hany]
        simp only [Bool.false_eq_true, if_false]
        rw [hins]
        simp [List.append_assoc]

/-- C8: a well-formed corpus containing a duplicate word key makes
`BuildDB` fail with the uniqueness-violation error; the rows written
before the first duplicate remain, the duplicate and everything after it
are never written, and the index is never built. -/
theorem c8_duplicate_abort (M : FloatModel) (corpus : List String)
    (recs : List (WordEmb M.F64))
    (hread : readwordEmbdFile M corpus = (recs, none))
    (hdup : ¬ (recs.map WordEmb.Word).Nodup) :
    ∃ pre w b post, encodeRecs M recs = pre ++ (w, b) :: post ∧
      ((pre.map Prod.fst).Nodup) ∧ w ∈ pre.map Prod.fst ∧
      BuildDB M none corpus = (some ⟨pre, false⟩, BuildResult.dupKey w) := by
  have h2 : ¬ ((((⟨[], false⟩ : Table).rows ++ encodeRecs M recs).map Prod.fst).Nodup) := by
    simpa [encodeRecs_keys] using hdup
  obtain ⟨pre, w, b, post, hl, hnd, hm, hins⟩ :=
    insertAll_firstDup (encodeRecs M recs) ⟨[], false⟩ (by simp) h2
  refine ⟨pre, w, b, post, hl, by simpa using hnd, by simpa using hm, ?_⟩
  have hins2 : insertAll ⟨[], false⟩ (encodeRecs M (readwordEmbdFile M corpus).1) =
      (⟨pre, false⟩, some w) := by
    rw [hread]
    simpa using hins
  simp only [BuildDB, hins2]

/-- C8, witness: a corpus repeating the word `a`; the first `a` and the
intervening `b` row remain, the second `a` and the following `c` are never
written, and the table is left unindexed with the duplicate-key error. -/
theorem c8_witness :
    readwordEmbdFile M0 ["4 1", "a 1.0", "b 2.0", "a 3.0", "c 4.0"] =
        ([⟨"a", ([0] : List Nat)⟩, ⟨"b", ([0] : List Nat)⟩, ⟨"a", ([0] : List Nat)⟩,
          ⟨"c", ([0] : List Nat)⟩], none) ∧
      ∃ pre w b post,
        encodeRecs M0 [⟨"a", ([0] : List Nat)⟩, ⟨"b", ([0] : List Nat)⟩,
            ⟨"a", ([0] : List Nat)⟩, ⟨"c", ([0] : List Nat)⟩] = pre ++ (w, b) :: post ∧
          ((pre.map Prod.fst).Nodup) ∧ w ∈ pre.map Prod.fst ∧
          BuildDB M0 none ["4 1", "a 1.0", "b 2.0", "a 3.0", "c 4.0"] =
            (some ⟨pre, false⟩, BuildResult.dupKey w) :=
  ⟨rfl,
    c8_duplicate_abort M0 ["4 1", "a 1.0", "b 2.0", "a 3.0", "c 4.0"]
      [⟨"a", ([0] : List Nat)⟩, ⟨"b", ([0] : List Nat)⟩, ⟨"a", ([0] : List Nat)⟩,
        ⟨"c", ([0] : List Nat)⟩] rfl (by simp)⟩

theorem parseFloats_length (M : FloatModel) :
    ∀ (ts : List String) (vec : List M.F64), parseFloats M ts = Except.ok vec →
      vec.length = ts.length := by
  intro ts
  induction ts with
  | nil => intro vec h; injection h with h1; rw [← h1]; rfl
  | cons tk rest ih =>
    intro vec h
    rw [parseFloats] at h
    cases hp : M.parseFloat tk with
    | none => rw [hp] at h; exact Except.noConfusion h
    | some v =>
      rw [hp] at h
      cases hr : parseFloats M rest with
      | error e => rw [hr] at h; exact Except.noConfusion h
      | ok vs =>
        rw [hr] at h
        injection h with h1
        rw [← h1]
        simp [ih vs hr]

theorem parseDataLine_ok_len (M : FloatModel) (embSize : Int) (line : Nat)
    (data : String) (e : WordEmb M.F64)
    (h : parseDataLine M embSize line data = Except.ok e) :
    (e.Vec.length : Int) = embSize := by
  cases hsp : splitN2 data with
  | nil => rw [parseDataLine, hsp] at h; exact Except.noConfusion h
  | cons a as =>
    cases as with
    | nil => rw [parseDataLine, hsp] at h; exact Except.noConfusion h
    | cons b bs =>
      cases bs with
      | cons c cs => rw [parseDataLine, hsp] at h; exact Except.noConfusion h
      | nil =>
        rw [parseDataLine, hsp] at h
        simp only at h
        split at h
        next hlen =>
          cases hp : parseFloats M (splitGo (trimGo b)) with
          | error tok => rw [hp] at h; exact Except.noConfusion h
          | ok vec =>
            rw [hp] at h
            injection h with h1
            rw [← h1]
            simpa [parseFloats_length M _ vec hp] using hlen
        next hlen => exact Except.noConfusion h

theorem readLoop_vec_len (M : FloatModel) :
    ∀ (lines : List String) (embSize : Int) (line : Nat), embSize ≠ 0 →
      ∀ e ∈ (readLoop M embSize line lines).1, (e.Vec.length : Int) = embSize := by
  intro lines
  induction lines with
  | nil => intro embSize line hne e he; simp [readLoop] at he
  | cons data rest ih =>
    intro embSize line hne e he
    rw [readLoop, if_neg hne] at he
    cases hp : parseDataLine M embSize line data with
    | error p => rw [hp] at he; simp at he
    | ok e0 =>
      rw [hp] at he
      simp only at he
      rcases List.mem_cons.mp he with heq | htail
      · subst heq; exact parseDataLine_ok_len M embSize line data e hp
      · exact ih embSize (line + 1) hne e htail

theorem readwordEmbdFile_header (M : FloatModel) (data : String) (rest : List String)
    (D : Int) (hD : headerDim (data :: rest) = some D) :
    readwordEmbdFile M (data :: rest) = readLoop M D 2 rest := by
  have h0 : readwordEmbdFile M (data :: rest) =
      (match splitGo data with
        | _ :: tok :: _ =>
          match atoiGo tok with
          | some n => readLoop M n 2 rest
          | none => ([], some (GoPanic.atoiFailed tok))
        | _ => ([], some GoPanic.indexOutOfRange)) := rfl
  rw [h0]
  cases hsp : splitGo data with
  | nil =>
    simp only [headerDim, hsp] at hD
    exact Option.noConfusion hD
  | cons a as =>
    cases as with
    | nil =>
      simp only [headerDim, hsp] at hD
      exact Option.noConfusion hD
    | cons tok l =>
      simp only [headerDim, hsp] at hD
      simp only [hD]

/-- The corpus of the C9 counterexample: its header declares dimension 0,
so the second line is consumed as another header (setting the effective
dimension to 2) and the third line is stored with an 8-byte blob. -/
def zeroDimCorpus : List String := ["5 0", "a 2", "w 1.0 2.0"]

/-- C9, counterexample: `BuildDB` succeeds on `zeroDimCorpus`, whose
header dimension is `D = 0`, yet the stored blob for `w` has 8 bytes, not
`4 * 0`. -/
theorem c9_counterexample :
    headerDim zeroDimCorpus = some 0 ∧
      BuildDB M0 none zeroDimCorpus =
        (some ⟨[("w", [0, 0, 0, 0, 0, 0, 0, 0])], true⟩, BuildResult.ok) ∧
      ([0, 0, 0, 0, 0, 0, 0, 0] : List Nat).length ≠ 4 * (0 : Int).toNat :=
  ⟨rfl, rfl, by decide⟩

/-- C9, amended: every `vecToBytes` blob has length `4 * len(vec)`; and
after a successful `BuildDB` from a corpus whose header dimension `D` is
positive, every stored entry's blob has length exactly `4 * D`. -/
theorem c9_blob_lengths (M : FloatModel) (vec : List M.F64) (order : ByteOrder)
    (corpus : List String) (D : Int) (t : Table)
    (hD : headerDim corpus = some D) (hpos : 0 < D)
    (hb : BuildDB M none corpus = (some t, BuildResult.ok)) :
    (vecToBytes M vec order).length = 4 * vec.length ∧
      ∀ row ∈ t.rows, row.2.length = 4 * D.toNat := by
  refine ⟨vecToBytes_length M vec order, ?_⟩
  intro row hrow
  obtain ⟨hrows, -, -⟩ := BuildDB_ok_state M corpus t hb
  rw [hrows] at hrow
  obtain ⟨e, he, heq⟩ := List.mem_map.mp hrow
  rcases corpus with - | ⟨data, rest⟩
  · simp only [headerDim] at hD
    exact Option.noConfusion hD
  · rw [readwordEmbdFile_header M data rest D hD] at he
    have hlen := readLoop_vec_len M rest D 2 (by omega) e he
    rw [← heq]
    simp only [vecToBytes_length]
    omega

/-- C9, witness for the amended theorem: a dimension-2 corpus whose single
stored blob has 8 bytes. -/
theorem c9_witness :
    headerDim ["1 2", "a 1.0 2.0"] = some 2 ∧ (0 : Int) < 2 ∧
      BuildDB M0 none ["1 2", "a 1.0 2.0"] =
        (some ⟨[("a", [0, 0, 0, 0, 0, 0, 0, 0])], true⟩, BuildResult.ok) ∧
      ((vecToBytes M0 ([5] : List Nat) ByteOrder.bigEndian).length =
          4 * ([5] : List Nat).length ∧
        ∀ row ∈ (⟨[("a", [0, 0, 0, 0, 0, 0, 0, 0])], true⟩ : Table).rows,
          row.2.length = 4 * (2 : Int).toNat) :=
  ⟨rfl, by decide, rfl,
    c9_blob_lengths M0 ([5] : List Nat) ByteOrder.bigEndian ["1 2", "a 1.0 2.0"] 2
      ⟨[("a", [0, 0, 0, 0, 0, 0, 0, 0])], true⟩ rfl (by decide) rfl⟩

end GoFastText
